import Mathlib

/-!
Verification development for the coretrace-log library.

The definitions below are a shallow embedding of logger.hpp (the two log()
dispatcher templates) and logger.cpp (global state, env-seeded one-time init,
module filter table, line formatter, numeric writers).  Byte strings are
modelled as List Char.  Process-level inputs that the C++ code reads through
cached globals or system calls are passed explicitly: the environment
variables CT_LOG_LEVEL / CT_DEBUG, the cached use_color() decision, the
cached pid, and the wall clock read by write_timestamp_to.  A log call's
opaque std::vformat rendering step is modelled by an Option (List Char)
argument: some msg is a successful render, none is a thrown exception.
-/

set_option maxRecDepth 10000

namespace Coretrace

abbrev Str := List Char

/-- Level enum from logger.hpp: Info = 0, Warn = 1, Error = 2. -/
inductive Level
  | info
  | warn
  | error
deriving DecidableEq

/-- static_cast of a Level to int. -/
def Level.toNat : Level → Nat
  | .info => 0
  | .warn => 1
  | .error => 2

/-- std::source_location as used by the logger: file name and line. -/
structure SourceLoc where
  file : Str
  line : Nat
deriving DecidableEq

/-- The wall-clock fields produced by clock_gettime + gmtime_r in
write_timestamp_to: year is tm_year + 1900, mon is tm_mon + 1, and millis is
tv_nsec / 1000000. -/
structure Clock where
  year : Nat
  mon : Nat
  mday : Nat
  hour : Nat
  minute : Nat
  sec : Nat
  millis : Nat
deriving DecidableEq

/-- Process-level inputs the implementation reads through getenv and cached
globals: CT_LOG_LEVEL, CT_DEBUG, the cached use_color() decision, and the
cached getpid() value. -/
structure Env where
  ct_log_level : Option Str
  ct_debug : Option Str
  use_color : Bool
  pid : Nat
deriving DecidableEq

/-- The mutable globals of logger.cpp: g_log_enabled, g_prefix_buf/g_prefix_len
(field pfx), g_min_level, g_min_level_set_explicitly, g_modules (names list,
filter_active), g_modules_set_explicitly, g_thread_safe, g_timestamps_enabled,
g_source_location_enabled, g_sink (custom_sink = sink pointer non-null), and
the pthread_once guard g_init_once (env_inited). -/
structure LoggerState where
  log_enabled : Bool
  pfx : Str
  min_level : Nat
  min_level_explicit : Bool
  modules : List Str
  filter_active : Bool
  modules_explicit : Bool
  thread_safe : Bool
  timestamps_enabled : Bool
  source_location_enabled : Bool
  custom_sink : Bool
  env_inited : Bool
deriving DecidableEq

/-- Compiled-in defaults of the globals in logger.cpp. -/
def initialState : LoggerState :=
  { log_enabled := false
    pfx := "==ct==".toList
    min_level := 0
    min_level_explicit := false
    modules := []
    filter_active := false
    modules_explicit := false
    thread_safe := true
    timestamps_enabled := false
    source_location_enabled := false
    custom_sink := false
    env_inited := false }

-- ## String helpers

/-- ASCII lowering of one byte, as done inside cstr_ieq. -/
def lowerChar (c : Char) : Char :=
  if 'A' ≤ c ∧ c ≤ 'Z' then Char.ofNat (c.toNat + 32) else c

/-- cstr_ieq: case-insensitive comparison of two byte strings (both strings
must end together, so this is equality of the lowered strings). -/
def cstr_ieq (a b : Str) : Bool :=
  a.map lowerChar == b.map lowerChar

/-- Splitting a byte string at a separator, as the CT_DEBUG parser walks
start/end pointers between commas (cur accumulates the current token in
reverse). -/
def splitByAux (sep : Char) : Str → Str → List Str
  | [], cur => [cur.reverse]
  | c :: rest, cur =>
    if c = sep then cur.reverse :: splitByAux sep rest []
    else splitByAux sep rest (c :: cur)

def splitBy (sep : Char) (s : Str) : List Str :=
  splitByAux sep s []

-- ## Module table helpers

/-- add_module_locked from logger.cpp: no-op on a duplicate; append and raise
filter_active when the table holds fewer than MAX_MODULES = 32 entries;
silent no-op when the table is full. -/
def add_module_locked (name : Str) (st : LoggerState) : LoggerState :=
  if name ∈ st.modules then st
  else if st.modules.length < 32 then
    { st with modules := st.modules ++ [name], filter_active := true }
  else st

/-- The in-place shift loop of disable_module: remove the first entry equal to
name, keeping the relative order of the rest. -/
def remove_first_module (name : Str) : List Str → List Str
  | [] => []
  | m :: rest => if m = name then rest else m :: remove_first_module name rest

-- ## Environment seeding

/-- CT_LOG_LEVEL token parsing in init_from_env: "warn" and "error"
(case-insensitive) map to 1 and 2, anything else to 0. -/
def parse_level_env (s : Str) : Nat :=
  if cstr_ieq s "warn".toList then 1
  else if cstr_ieq s "error".toList then 2
  else 0

/-- The CT_DEBUG comma loop: each token with 0 < len < MODULE_NAME_LEN = 32 is
registered through add_module_locked. -/
def seed_modules_from_env (s : Str) (st : LoggerState) : LoggerState :=
  (splitBy ',' s).foldl
    (fun acc tok =>
      if 0 < tok.length ∧ tok.length < 32 then add_module_locked tok acc else acc)
    st

/-- The CT_LOG_LEVEL block of init_from_env: runs only while
g_min_level_set_explicitly is clear and the variable is present. -/
def init_level_from_env (env : Env) (st : LoggerState) : LoggerState :=
  if st.min_level_explicit then st
  else
    match env.ct_log_level with
    | none => st
    | some s => { st with min_level := parse_level_env s }

/-- The CT_DEBUG block of init_from_env: runs only while
g_modules_set_explicitly is clear and the variable is present and
non-empty. -/
def init_modules_from_env (env : Env) (st : LoggerState) : LoggerState :=
  if st.modules_explicit then st
  else
    match env.ct_debug with
    | none => st
    | some s => if s = [] then st else seed_modules_from_env s st

/-- init_from_env from logger.cpp: the CT_LOG_LEVEL block, then the CT_DEBUG
block. -/
def init_from_env (env : Env) (st : LoggerState) : LoggerState :=
  init_modules_from_env env (init_level_from_env env st)

/-- init_once: the pthread_once gate around init_from_env. -/
def init_once (env : Env) (st : LoggerState) : LoggerState :=
  if st.env_inited then st
  else { init_from_env env st with env_inited := true }

-- ## Public configuration operations

def enable_logging (st : LoggerState) : LoggerState :=
  { st with log_enabled := true }

def disable_logging (st : LoggerState) : LoggerState :=
  { st with log_enabled := false }

def log_is_enabled (st : LoggerState) : Bool :=
  st.log_enabled

/-- set_prefix from logger.cpp (field name shortened to pfx): the copied
length is capped at sizeof(g_prefix_buf) - 1 = 63 bytes. -/
def set_pfx (p : Str) (st : LoggerState) : LoggerState :=
  let len := if p.length ≥ 64 then 63 else p.length
  { st with pfx := p.take len }

/-- set_min_level: mark the level explicitly set, run init_once, then store
the level. -/
def set_min_level (env : Env) (l : Level) (st : LoggerState) : LoggerState :=
  let st1 := init_once env { st with min_level_explicit := true }
  { st1 with min_level := l.toNat }

/-- enable_module: silently reject empty or over-length names, then mark
modules explicitly set, run init_once, and insert under the state lock. -/
def enable_module (env : Env) (name : Str) (st : LoggerState) : LoggerState :=
  if name = [] ∨ 32 ≤ name.length then st
  else add_module_locked name (init_once env { st with modules_explicit := true })

/-- disable_module: reject empty names, mark modules explicitly set, run
init_once, then remove the first matching entry; filter_active drops to
false only when the table becomes empty. -/
def disable_module (env : Env) (name : Str) (st : LoggerState) : LoggerState :=
  if name = [] then st
  else
    let st1 := init_once env { st with modules_explicit := true }
    if name ∈ st1.modules then
      let ms := remove_first_module name st1.modules
      { st1 with
        modules := ms
        filter_active := if ms = [] then false else st1.filter_active }
    else st1

/-- enable_all_modules: mark modules explicitly set, run init_once, clear the
table and deactivate filtering. -/
def enable_all_modules (env : Env) (st : LoggerState) : LoggerState :=
  let st1 := init_once env { st with modules_explicit := true }
  { st1 with modules := [], filter_active := false }

/-- module_is_enabled: everything passes while no filter is active; otherwise
membership by exact byte comparison (sv_eq). -/
def module_is_enabled (st : LoggerState) (name : Str) : Bool :=
  if !st.filter_active then true
  else decide (name ∈ st.modules)

def set_thread_safe (b : Bool) (st : LoggerState) : LoggerState :=
  { st with thread_safe := b }

def set_sink (custom : Bool) (st : LoggerState) : LoggerState :=
  { st with custom_sink := custom }

def reset_sink (st : LoggerState) : LoggerState :=
  { st with custom_sink := false }

def set_timestamps (b : Bool) (st : LoggerState) : LoggerState :=
  { st with timestamps_enabled := b }

def set_source_location (b : Bool) (st : LoggerState) : LoggerState :=
  { st with source_location_enabled := b }

-- ## Color table

/-- The Color enum from logger.hpp. -/
inductive LogColor
  | reset
  | dim | bold | underline | italic | blink | reverse | hidden | strike
  | black | red | green | yellow | blue | magenta | cyan | white
  | gray | brightRed | brightGreen | brightYellow
  | brightBlue | brightMagenta | brightCyan | brightWhite
  | bgBlack | bgRed | bgGreen | bgYellow | bgBlue | bgMagenta | bgCyan | bgWhite
  | bgGray | bgBrightRed | bgBrightGreen | bgBrightYellow
  | bgBrightBlue | bgBrightMagenta | bgBrightCyan | bgBrightWhite
deriving DecidableEq

/-- The ANSI escape table inside color() in logger.cpp. -/
def colorCode : LogColor → Str
  | .reset => "\x1b[0m".toList
  | .dim => "\x1b[2m".toList
  | .bold => "\x1b[1m".toList
  | .underline => "\x1b[4m".toList
  | .italic => "\x1b[3m".toList
  | .blink => "\x1b[5m".toList
  | .reverse => "\x1b[7m".toList
  | .hidden => "\x1b[8m".toList
  | .strike => "\x1b[9m".toList
  | .black => "\x1b[30m".toList
  | .red => "\x1b[31m".toList
  | .green => "\x1b[32m".toList
  | .yellow => "\x1b[33m".toList
  | .blue => "\x1b[34m".toList
  | .magenta => "\x1b[35m".toList
  | .cyan => "\x1b[36m".toList
  | .white => "\x1b[37m".toList
  | .gray => "\x1b[90m".toList
  | .brightRed => "\x1b[91m".toList
  | .brightGreen => "\x1b[92m".toList
  | .brightYellow => "\x1b[93m".toList
  | .brightBlue => "\x1b[94m".toList
  | .brightMagenta => "\x1b[95m".toList
  | .brightCyan => "\x1b[96m".toList
  | .brightWhite => "\x1b[97m".toList
  | .bgBlack => "\x1b[40m".toList
  | .bgRed => "\x1b[41m".toList
  | .bgGreen => "\x1b[42m".toList
  | .bgYellow => "\x1b[43m".toList
  | .bgBlue => "\x1b[44m".toList
  | .bgMagenta => "\x1b[45m".toList
  | .bgCyan => "\x1b[46m".toList
  | .bgWhite => "\x1b[47m".toList
  | .bgGray => "\x1b[100m".toList
  | .bgBrightRed => "\x1b[101m".toList
  | .bgBrightGreen => "\x1b[102m".toList
  | .bgBrightYellow => "\x1b[103m".toList
  | .bgBrightBlue => "\x1b[104m".toList
  | .bgBrightMagenta => "\x1b[105m".toList
  | .bgBrightCyan => "\x1b[106m".toList
  | .bgBrightWhite => "\x1b[107m".toList

/-- color() from logger.cpp: the escape sequence, or empty when the cached
use_color() decision is off. -/
def color (env : Env) (c : LogColor) : Str :=
  if env.use_color then colorCode c else []

/-- level_label: INFO / WARN / ERROR. -/
def level_label (l : Level) : Str :=
  match l with
  | .info => "INFO".toList
  | .warn => "WARN".toList
  | .error => "ERROR".toList

/-- level_color: Info is green, Warn yellow, Error red. -/
def level_color (env : Env) (l : Level) : Str :=
  match l with
  | .info => color env .green
  | .warn => color env .yellow
  | .error => color env .red

-- ## Numeric and field formatting

/-- One decimal digit byte, the C expression is the char cast of
a zero character plus the digit. -/
def digitChar (d : Nat) : Char :=
  Char.ofNat (48 + d)

/-- One lowercase hex digit byte, as produced inside write_hex. -/
def hexDigitChar (d : Nat) : Char :=
  if d < 10 then Char.ofNat (48 + d) else Char.ofNat (97 + (d - 10))

/-- The digit-collection loop of write_dec: it peels base-10 digits least
significant first while the value is non-zero and fewer than
sizeof(buf) = 32 digits were written (the first argument is the remaining
capacity). -/
def decScanAux : Nat → Nat → Str
  | 0, _ => []
  | fuel + 1, v =>
    if v = 0 then [] else digitChar (v % 10) :: decScanAux fuel (v / 10)

/-- write_dec from logger.cpp, as the byte string it hands to write_raw:
a single zero digit for 0, otherwise the collected digits reversed. -/
def write_dec_out (v : Nat) : Str :=
  if v = 0 then ['0'] else (decScanAux 32 v).reverse

/-- The descending shift sequence of write_hex's for-loop:
hexShifts 16 = [60, 56, ..., 4, 0]. -/
def hexShifts : Nat → List Nat
  | 0 => []
  | m + 1 => 4 * m :: hexShifts m

/-- The nibble loop of write_hex: leading zero nibbles are skipped until the
first non-zero nibble (or shift 0); value >> shift & 0xF is v / 2 ^ s % 16. -/
def hexScan (v : Nat) : List Nat → Bool → Str
  | [], _ => []
  | s :: rest, started =>
    let nib := v / 2 ^ s % 16
    if ¬started ∧ nib = 0 ∧ s ≠ 0 then hexScan v rest started
    else hexDigitChar nib :: hexScan v rest true

/-- write_hex from logger.cpp, as the byte string it hands to write_raw
(the trailing single-zero branch is kept even though the loop always emits
at shift 0). -/
def write_hex_out (v : Nat) : Str :=
  let body := hexScan v (hexShifts 16) false
  '0' :: 'x' :: (if body = [] then ['0'] else body)

/-- write_timestamp_to from logger.cpp: a bracketed zero-padded UTC stamp
followed by one space, each digit produced by division and remainder
arithmetic on the clock fields. -/
def timestampBytes (clk : Clock) : Str :=
  ['[',
   Char.ofNat (48 + clk.year / 1000), Char.ofNat (48 + clk.year / 100 % 10),
   Char.ofNat (48 + clk.year / 10 % 10), Char.ofNat (48 + clk.year % 10), '-',
   Char.ofNat (48 + clk.mon / 10), Char.ofNat (48 + clk.mon % 10), '-',
   Char.ofNat (48 + clk.mday / 10), Char.ofNat (48 + clk.mday % 10), 'T',
   Char.ofNat (48 + clk.hour / 10), Char.ofNat (48 + clk.hour % 10), ':',
   Char.ofNat (48 + clk.minute / 10), Char.ofNat (48 + clk.minute % 10), ':',
   Char.ofNat (48 + clk.sec / 10), Char.ofNat (48 + clk.sec % 10), '.',
   Char.ofNat (48 + clk.millis / 100), Char.ofNat (48 + clk.millis / 10 % 10),
   Char.ofNat (48 + clk.millis % 10), ']', ' ']

/-- basename_of from logger.cpp: the pointer past the last slash, i.e. the
bytes accumulated since the last '/' was seen. -/
def basename_of (path : Str) : Str :=
  path.foldl (fun acc c => if c = '/' then [] else acc ++ [c]) []

-- ## Log line assembly

/-- write_log_line from logger.cpp, as the concatenation of the byte strings
it sends to the sink, in source order: optional timestamp, dimmed pid
between bars, the prefix tag, the colorized level tag, optional source
location, optional module tag, one space, then the message verbatim. -/
def write_log_line (env : Env) (clk : Clock) (st : LoggerState) (level : Level)
    (module : Str) (message : Str) (loc : SourceLoc) : Str :=
  (if st.timestamps_enabled then timestampBytes clk else [])
  ++ color env .dim ++ ['|'] ++ write_dec_out env.pid ++ ['|'] ++ color env .reset ++ [' ']
  ++ color env .gray ++ color env .italic ++ st.pfx ++ [' '] ++ color env .reset
  ++ level_color env level ++ ['['] ++ level_label level ++ [']'] ++ color env .reset
  ++ (if st.source_location_enabled then
        [' '] ++ color env .dim ++ basename_of loc.file ++ [':']
          ++ write_dec_out loc.line ++ color env .reset
      else [])
  ++ (if module = [] then []
      else [' '] ++ color env .dim ++ ['('] ++ module ++ [')'] ++ color env .reset)
  ++ [' '] ++ message

/-- The fixed diagnostic line emitted by the catch block of log(). -/
def formatErrorFallback : Str :=
  "coretrace: log format error\n".toList

-- ## Dispatchers (the two log() templates from logger.hpp)

/-- log(entry, fmt, args...) without a module tag.  Returns the state after
the embedded init_once together with every byte the call sends to the sink
(empty when the call is filtered out or renders an empty message). -/
def logPlain (env : Env) (clk : Clock) (st : LoggerState) (level : Level)
    (loc : SourceLoc) (render : Option Str) : LoggerState × Str :=
  let st1 := init_once env st
  if !log_is_enabled st1 then (st1, [])
  else if level.toNat < st1.min_level then (st1, [])
  else
    match render with
    | none => (st1, formatErrorFallback)
    | some msg =>
      if msg = [] then (st1, [])
      else (st1, write_log_line env clk st1 level [] msg loc)

/-- log(entry, Module(mod), fmt, args...): same as logPlain with one extra
early return when the tag is non-empty and module_is_enabled rejects it. -/
def logModule (env : Env) (clk : Clock) (st : LoggerState) (level : Level)
    (mod : Str) (loc : SourceLoc) (render : Option Str) : LoggerState × Str :=
  let st1 := init_once env st
  if !log_is_enabled st1 then (st1, [])
  else if level.toNat < st1.min_level then (st1, [])
  else if mod ≠ [] ∧ module_is_enabled st1 mod = false then (st1, [])
  else
    match render with
    | none => (st1, formatErrorFallback)
    | some msg =>
      if msg = [] then (st1, [])
      else (st1, write_log_line env clk st1 level mod msg loc)

-- ## Operation traces

/-- One public API call, for reasoning about arbitrary call sequences.  A log
call's only effect on the configuration state is its embedded init_once. -/
inductive Op
  | opEnableLogging
  | opDisableLogging
  | opSetPfx (p : Str)
  | opSetMinLevel (l : Level)
  | opEnableModule (n : Str)
  | opDisableModule (n : Str)
  | opEnableAllModules
  | opSetThreadSafe (b : Bool)
  | opSetTimestamps (b : Bool)
  | opSetSourceLocation (b : Bool)
  | opSetSink (b : Bool)
  | opLog (l : Level) (m : Option Str)
deriving DecidableEq

/-- State effect of one API call. -/
def step (env : Env) (st : LoggerState) : Op → LoggerState
  | .opEnableLogging => enable_logging st
  | .opDisableLogging => disable_logging st
  | .opSetPfx p => set_pfx p st
  | .opSetMinLevel l => set_min_level env l st
  | .opEnableModule n => enable_module env n st
  | .opDisableModule n => disable_module env n st
  | .opEnableAllModules => enable_all_modules env st
  | .opSetThreadSafe b => set_thread_safe b st
  | .opSetTimestamps b => set_timestamps b st
  | .opSetSourceLocation b => set_source_location b st
  | .opSetSink b => set_sink b st
  | .opLog _ _ => init_once env st

/-- State after a sequence of API calls. -/
def run (env : Env) (ops : List Op) (st : LoggerState) : LoggerState :=
  ops.foldl (step env) st

-- ## Specification-side definitions
-- These transcribe the wording of the specification (not the C++ source) and
-- exist only to be compared against the source-derived definitions above.

/-- Modelled from the spec: the canonical minimal decimal representation of a
number, a single zero digit for zero and otherwise the base-10 digit list
(least significant first, leading digit non-zero) reversed. -/
def specCanonicalDec (v : Nat) : Str :=
  if v = 0 then ['0'] else ((Nat.digits 10 v).map digitChar).reverse

/-- Modelled from the spec: a 0x tag followed by the canonical minimal
lowercase hexadecimal representation. -/
def specCanonicalHex (v : Nat) : Str :=
  '0' :: 'x' :: (if v = 0 then ['0'] else ((Nat.digits 16 v).map hexDigitChar).reverse)

/-- Modelled from the spec: a zero-padded two-digit decimal field. -/
def specPad2 (n : Nat) : Str :=
  [digitChar (n / 10 % 10), digitChar (n % 10)]

/-- Modelled from the spec: a zero-padded three-digit decimal field. -/
def specPad3 (n : Nat) : Str :=
  [digitChar (n / 100 % 10), digitChar (n / 10 % 10), digitChar (n % 10)]

/-- Modelled from the spec: a zero-padded four-digit decimal field. -/
def specPad4 (n : Nat) : Str :=
  [digitChar (n / 1000 % 10), digitChar (n / 100 % 10),
   digitChar (n / 10 % 10), digitChar (n % 10)]

/-- Modelled from the spec: the timestamp field, a bracketed zero-padded
date-time of shape YYYY-MM-DDThh:mm:ss.mmm, without surrounding spaces. -/
def specTimestamp (clk : Clock) : Str :=
  '[' :: (specPad4 clk.year ++ '-' :: specPad2 clk.mon ++ '-' :: specPad2 clk.mday
    ++ 'T' :: specPad2 clk.hour ++ ':' :: specPad2 clk.minute ++ ':' :: specPad2 clk.sec
    ++ '.' :: specPad3 clk.millis ++ [']'])

/-- Modelled from the spec: the final path segment of a file path, i.e. the
last piece of the path split at '/'. -/
def specBasename (path : Str) : Str :=
  (splitBy '/' path).getLastD []

/-- An optional field contributes itself when present and nothing when
absent. -/
def optField : Option Str → List Str
  | none => []
  | some f => [f]

/-- Modelled from the spec: a log line is the present fields, in fixed order
timestamp, pid-between-bars, prefix tag, bracketed level, file:line, module
in parentheses, message, joined by exactly one space, with no trailing
framing. -/
def specLine (pid : Nat) (ts : Option Clock) (pfxField : Str) (level : Level)
    (loc : Option SourceLoc) (mod : Option Str) (msg : Str) : Str :=
  List.intercalate [' ']
    (optField (ts.map specTimestamp)
      ++ ['|' :: (specCanonicalDec pid ++ ['|']), pfxField,
          '[' :: (level_label level ++ [']'])]
      ++ optField (loc.map fun l => specBasename l.file ++ ':' :: specCanonicalDec l.line)
      ++ optField (mod.map fun m => '(' :: (m ++ [')']))
      ++ [msg])

/-- The module-table invariant claimed by the spec: at most 32 entries, each
non-empty and at most 31 bytes, and filter_active exactly when the table is
non-empty. -/
def moduleInv (st : LoggerState) : Prop :=
  st.modules.length ≤ 32
  ∧ (∀ m ∈ st.modules, m ≠ [] ∧ m.length ≤ 31)
  ∧ (st.filter_active = true ↔ st.modules ≠ [])

-- ## Concrete fixtures used to exercise the theorems on closed inputs

/-- An environment with neither CT_LOG_LEVEL nor CT_DEBUG set, color off,
pid 7. -/
def envNone : Env :=
  { ct_log_level := none, ct_debug := none, use_color := false, pid := 7 }

/-- An environment with CT_LOG_LEVEL=warn and CT_DEBUG=alloc,net. -/
def envSeed : Env :=
  { ct_log_level := some "warn".toList, ct_debug := some "alloc,net".toList
    use_color := false, pid := 7 }

def clk0 : Clock :=
  { year := 2025, mon := 1, mday := 15, hour := 10, minute := 45, sec := 23
    millis := 456 }

def loc0 : SourceLoc :=
  { file := "src/main.cpp".toList, line := 42 }

/-- Logging enabled, env init already run, defaults otherwise. -/
def stOn : LoggerState :=
  { initialState with log_enabled := true, env_inited := true }

/-- Logging enabled with the module filter restricted to the single
module alloc. -/
def stAlloc : LoggerState :=
  { stOn with modules := ["alloc".toList], filter_active := true }

/-- Logging enabled with a full 32-entry module table. -/
def stFull : LoggerState :=
  { stOn with
      modules := (List.range 32).map fun i => [Char.ofNat (65 + i)]
      filter_active := true }

def msg0 : Str := "hi".toList

-- ## Preservation lemmas for the state operations

theorem add_module_locked_min_level (n : Str) (st : LoggerState) :
    (add_module_locked n st).min_level = st.min_level := by
  unfold add_module_locked
  split
  · rfl
  · split <;> rfl

theorem add_module_locked_min_level_explicit (n : Str) (st : LoggerState) :
    (add_module_locked n st).min_level_explicit = st.min_level_explicit := by
  unfold add_module_locked
  split
  · rfl
  · split <;> rfl

theorem add_module_locked_modules_explicit (n : Str) (st : LoggerState) :
    (add_module_locked n st).modules_explicit = st.modules_explicit := by
  unfold add_module_locked
  split
  · rfl
  · split <;> rfl

theorem add_module_locked_env_inited (n : Str) (st : LoggerState) :
    (add_module_locked n st).env_inited = st.env_inited := by
  unfold add_module_locked
  split
  · rfl
  · split <;> rfl

/-- Environment module seeding preserves every state component that
add_module_locked preserves. -/
theorem seed_modules_from_env_pres {α : Type} (f : LoggerState → α)
    (hf : ∀ n st, f (add_module_locked n st) = f st) (s : Str) (st : LoggerState) :
    f (seed_modules_from_env s st) = f st := by
  unfold seed_modules_from_env
  generalize splitBy ',' s = toks
  induction toks generalizing st with
  | nil => rfl
  | cons t ts ih =>
    simp only [List.foldl]
    rw [ih]
    split
    · exact hf t st
    · rfl

/-- The CT_LOG_LEVEL block touches only min_level. -/
theorem init_level_from_env_pres {α : Type} (f : LoggerState → α)
    (hf : ∀ st v, f { st with min_level := v } = f st) (env : Env) (st : LoggerState) :
    f (init_level_from_env env st) = f st := by
  unfold init_level_from_env
  split
  · rfl
  · split
    · rfl
    · exact hf st _

/-- The CT_DEBUG block touches only modules and filter_active. -/
theorem init_modules_from_env_pres {α : Type} (f : LoggerState → α)
    (hf : ∀ n st, f (add_module_locked n st) = f st) (env : Env) (st : LoggerState) :
    f (init_modules_from_env env st) = f st := by
  unfold init_modules_from_env
  split
  · rfl
  · split
    · rfl
    · split
      · rfl
      · exact seed_modules_from_env_pres f hf _ _

theorem init_level_from_env_of_explicit (env : Env) (st : LoggerState)
    (h : st.min_level_explicit = true) : init_level_from_env env st = st := by
  simp [init_level_from_env, h]

theorem init_modules_from_env_of_explicit (env : Env) (st : LoggerState)
    (h : st.modules_explicit = true) : init_modules_from_env env st = st := by
  simp [init_modules_from_env, h]

theorem init_from_env_min_level_explicit (env : Env) (st : LoggerState) :
    (init_from_env env st).min_level_explicit = st.min_level_explicit := by
  unfold init_from_env
  rw [init_modules_from_env_pres (fun s => s.min_level_explicit)
    add_module_locked_min_level_explicit]
  exact init_level_from_env_pres (fun s => s.min_level_explicit) (fun _ _ => rfl) _ _

theorem init_from_env_modules_explicit (env : Env) (st : LoggerState) :
    (init_from_env env st).modules_explicit = st.modules_explicit := by
  unfold init_from_env
  rw [init_modules_from_env_pres (fun s => s.modules_explicit)
    add_module_locked_modules_explicit]
  exact init_level_from_env_pres (fun s => s.modules_explicit) (fun _ _ => rfl) _ _

theorem init_from_env_min_level_of_explicit (env : Env) (st : LoggerState)
    (h : st.min_level_explicit = true) :
    (init_from_env env st).min_level = st.min_level := by
  unfold init_from_env
  rw [init_modules_from_env_pres (fun s => s.min_level) add_module_locked_min_level,
    init_level_from_env_of_explicit env st h]

theorem init_from_env_modules_of_explicit (env : Env) (st : LoggerState)
    (h : st.modules_explicit = true) :
    (init_from_env env st).modules = st.modules
    ∧ (init_from_env env st).filter_active = st.filter_active := by
  unfold init_from_env
  have hme : (init_level_from_env env st).modules_explicit = st.modules_explicit :=
    init_level_from_env_pres (fun s => s.modules_explicit) (fun _ _ => rfl) env st
  rw [init_modules_from_env_of_explicit env _ (hme.trans h)]
  exact ⟨init_level_from_env_pres (fun s => s.modules) (fun _ _ => rfl) env st,
    init_level_from_env_pres (fun s => s.filter_active) (fun _ _ => rfl) env st⟩

theorem init_once_env_inited (env : Env) (st : LoggerState) :
    (init_once env st).env_inited = true := by
  unfold init_once
  split
  · assumption
  · rfl

theorem init_once_of_inited (env : Env) (st : LoggerState)
    (h : st.env_inited = true) : init_once env st = st := by
  simp [init_once, h]

theorem init_once_min_level_explicit (env : Env) (st : LoggerState) :
    (init_once env st).min_level_explicit = st.min_level_explicit := by
  unfold init_once
  split
  · rfl
  · exact init_from_env_min_level_explicit env st

theorem init_once_modules_explicit (env : Env) (st : LoggerState) :
    (init_once env st).modules_explicit = st.modules_explicit := by
  unfold init_once
  split
  · rfl
  · exact init_from_env_modules_explicit env st

theorem init_once_min_level_of_explicit (env : Env) (st : LoggerState)
    (h : st.min_level_explicit = true) :
    (init_once env st).min_level = st.min_level := by
  unfold init_once
  split
  · rfl
  · exact init_from_env_min_level_of_explicit env st h

theorem init_once_modules_of_explicit (env : Env) (st : LoggerState)
    (h : st.modules_explicit = true) :
    (init_once env st).modules = st.modules
    ∧ (init_once env st).filter_active = st.filter_active := by
  unfold init_once
  split
  · exact ⟨rfl, rfl⟩
  · exact init_from_env_modules_of_explicit env st h

/-- Re-marking modules_explicit is the identity once the flag is set. -/
theorem set_modules_explicit_eq_self (st : LoggerState)
    (h : st.modules_explicit = true) :
    ({ st with modules_explicit := true } : LoggerState) = st := by
  cases st
  simp_all

/-- Inserting the same name twice is the same as inserting it once. -/
theorem add_module_locked_idem (n : Str) (st : LoggerState) :
    add_module_locked n (add_module_locked n st) = add_module_locked n st := by
  by_cases h1 : n ∈ st.modules
  · simp [add_module_locked, h1]
  · by_cases h2 : st.modules.length < 32
    · simp [add_module_locked, h1, h2]
    · simp [add_module_locked, h1, h2]

-- ## Basic formatter lemmas

/-- The message bytes are the final segment of every formatted line. -/
theorem message_isSuffix_write_log_line (env : Env) (clk : Clock) (st : LoggerState)
    (level : Level) (module message : Str) (loc : SourceLoc) :
    List.IsSuffix message (write_log_line env clk st level module message loc) := by
  unfold write_log_line
  exact List.suffix_append _ _

/-- A formatted line is never empty (it always contains the space before the
message). -/
theorem write_log_line_ne_nil (env : Env) (clk : Clock) (st : LoggerState)
    (level : Level) (module message : Str) (loc : SourceLoc) :
    write_log_line env clk st level module message loc ≠ [] := by
  unfold write_log_line
  simp

-- ## C10: the empty module tag bypasses the filter

/-- C10: a log call through the module overload with an empty module name
behaves exactly like the untagged overload — the filter is skipped and the
emitted line carries no module field, for every state, environment, level,
location and render outcome. -/
theorem claim_C10_empty_module_is_plain (env : Env) (clk : Clock) (st : LoggerState)
    (level : Level) (loc : SourceLoc) (render : Option Str) :
    logModule env clk st level [] loc render = logPlain env clk st level loc render := by
  simp [logModule, logPlain]

-- ## C1: enable/level gating of both log overloads

/-- C1: with logging disabled nothing reaches the sink even when all filters
would pass; with logging enabled, a level strictly below the minimum emits
nothing; with logging enabled, level at or above the minimum, the module
filter passing and a non-empty rendered message, the sink observes the
formatted line, which carries the message — for both overloads and every
level. -/
theorem claim_C1_enable_level_gating (env : Env) (clk : Clock) (st : LoggerState)
    (level : Level) (mod : Str) (loc : SourceLoc) (render : Option Str) :
    ((init_once env st).log_enabled = false →
      (logPlain env clk st level loc render).2 = []
      ∧ (logModule env clk st level mod loc render).2 = [])
    ∧ ((init_once env st).log_enabled = true →
        level.toNat < (init_once env st).min_level →
        (logPlain env clk st level loc render).2 = []
        ∧ (logModule env clk st level mod loc render).2 = [])
    ∧ (∀ msg, (init_once env st).log_enabled = true →
        (init_once env st).min_level ≤ level.toNat →
        module_is_enabled (init_once env st) mod = true →
        render = some msg → msg ≠ [] →
        (logPlain env clk st level loc render).2
            = write_log_line env clk (init_once env st) level [] msg loc
        ∧ (logModule env clk st level mod loc render).2
            = write_log_line env clk (init_once env st) level mod msg loc
        ∧ List.IsSuffix msg (logPlain env clk st level loc render).2
        ∧ List.IsSuffix msg (logModule env clk st level mod loc render).2
        ∧ (logPlain env clk st level loc render).2 ≠ []
        ∧ (logModule env clk st level mod loc render).2 ≠ []) := by
  refine ⟨fun hoff => ?_, fun hon hlt => ?_, fun msg hon hge hmod hr hmsg => ?_⟩
  · simp [logPlain, logModule, log_is_enabled, hoff]
  · simp [logPlain, logModule, log_is_enabled, hon, hlt]
  · subst hr
    have hnlt : ¬ level.toNat < (init_once env st).min_level := Nat.not_lt.mpr hge
    refine ⟨?_, ?_, ?_, ?_, ?_, ?_⟩ <;>
      simp [logPlain, logModule, log_is_enabled, hon, hnlt, hmod, hmsg,
        message_isSuffix_write_log_line, write_log_line_ne_nil]

/-- C1 exercised on closed inputs: an enabled state with minimum level Info
emits a Warn message through both overloads, and the message bytes end the
emitted line. -/
theorem claim_C1_enable_level_gating_witness :
    (init_once envNone stAlloc).log_enabled = true
    ∧ (init_once envNone stAlloc).min_level ≤ Level.warn.toNat
    ∧ module_is_enabled (init_once envNone stAlloc) "alloc".toList = true
    ∧ msg0 ≠ []
    ∧ (logPlain envNone clk0 stAlloc .warn loc0 (some msg0)).2
        = write_log_line envNone clk0 (init_once envNone stAlloc) .warn [] msg0 loc0
    ∧ (logModule envNone clk0 stAlloc .warn "alloc".toList loc0 (some msg0)).2 ≠ [] := by
  refine ⟨by decide, by decide, by decide, by decide, ?_, ?_⟩
  · exact (claim_C1_enable_level_gating envNone clk0 stAlloc .warn "alloc".toList loc0
      (some msg0)).2.2 msg0 (by decide) (by decide) (by decide) rfl (by decide) |>.1
  · exact (claim_C1_enable_level_gating envNone clk0 stAlloc .warn "alloc".toList loc0
      (some msg0)).2.2 msg0 (by decide) (by decide) (by decide) rfl (by decide)
      |>.2.2.2.2.2

-- ## C8: rendering failure falls back to the fixed diagnostic line

/-- C8: when logging is enabled and the level and module filters pass, a
failing render is replaced by the fixed fallback diagnostic bytes written
through the raw path — the sink receives exactly the fallback string, with
no line formatting around it, and the call still returns normally. -/
theorem claim_C8_render_failure_fallback (env : Env) (clk : Clock) (st : LoggerState)
    (level : Level) (mod : Str) (loc : SourceLoc) :
    formatErrorFallback = "coretrace: log format error\n".toList
    ∧ ((init_once env st).log_enabled = true →
        (init_once env st).min_level ≤ level.toNat →
        (logPlain env clk st level loc none).2 = formatErrorFallback)
    ∧ ((init_once env st).log_enabled = true →
        (init_once env st).min_level ≤ level.toNat →
        module_is_enabled (init_once env st) mod = true →
        (logModule env clk st level mod loc none).2 = formatErrorFallback) := by
  refine ⟨rfl, fun hon hge => ?_, fun hon hge hmod => ?_⟩
  · simp [logPlain, log_is_enabled, hon, Nat.not_lt.mpr hge]
  · simp [logModule, log_is_enabled, hon, Nat.not_lt.mpr hge, hmod]

/-- C8 exercised on closed inputs: a failing render in an enabled state
produces exactly the fallback diagnostic bytes. -/
theorem claim_C8_render_failure_fallback_witness :
    (init_once envNone stOn).log_enabled = true
    ∧ (init_once envNone stOn).min_level ≤ Level.info.toNat
    ∧ (logPlain envNone clk0 stOn .info loc0 none).2 = formatErrorFallback := by
  refine ⟨by decide, by decide, ?_⟩
  exact (claim_C8_render_failure_fallback envNone clk0 stOn .info [] loc0).2.1
    (by decide) (by decide)

-- ## C4: behaviour of the module filter when it is active

/-- C4 as stated is false on the code: with the filter active (module table
{alloc}), logging enabled and all other filters passing, an untagged log
call still emits a line — the untagged overload never consults the module
filter, so untagged calls are not suppressed. -/
theorem claim_C4_counterexample :
    stAlloc.filter_active = true
    ∧ init_once envNone stAlloc = stAlloc
    ∧ (logPlain envNone clk0 stAlloc .info loc0 (some msg0)).2 ≠ [] := by
  decide

/-- C4 amended: whenever the module filter is active, every log call tagged
with a non-empty module that is not in the table is suppressed; log calls
carrying no module tag are not subject to the module filter and emit
whenever the enable/level/message checks pass. -/
theorem claim_C4_amended_filter_active (env : Env) (clk : Clock) (st : LoggerState)
    (level : Level) (n : Str) (loc : SourceLoc) (render : Option Str) :
    ((init_once env st).filter_active = true →
      n ≠ [] → n ∉ (init_once env st).modules →
      (logModule env clk st level n loc render).2 = [])
    ∧ (∀ msg, (init_once env st).filter_active = true →
        (init_once env st).log_enabled = true →
        (init_once env st).min_level ≤ level.toNat →
        render = some msg → msg ≠ [] →
        (logPlain env clk st level loc render).2 ≠ []) := by
  constructor
  · intro hact hne hmem
    have hdis : module_is_enabled (init_once env st) n = false := by
      simp [module_is_enabled, hact, hmem]
    by_cases hon : (init_once env st).log_enabled
    · by_cases hlt : level.toNat < (init_once env st).min_level
      · simp [logModule, log_is_enabled, hon, hlt]
      · simp [logModule, log_is_enabled, hon, hlt, hdis, hne]
    · simp [logModule, log_is_enabled, hon]
  · intro msg _ hon hge hr hmsg
    subst hr
    simp [logPlain, log_is_enabled, hon, Nat.not_lt.mpr hge, hmsg,
      write_log_line_ne_nil]

/-- C4 amended exercised on closed inputs: with table {alloc} active, a call
tagged net is suppressed, and an untagged call still emits. -/
theorem claim_C4_amended_filter_active_witness :
    (init_once envNone stAlloc).filter_active = true
    ∧ "net".toList ∉ (init_once envNone stAlloc).modules
    ∧ (logModule envNone clk0 stAlloc .info "net".toList loc0 (some msg0)).2 = []
    ∧ (logPlain envNone clk0 stAlloc .info loc0 (some msg0)).2 ≠ [] := by
  refine ⟨by decide, by decide, ?_, ?_⟩
  · exact (claim_C4_amended_filter_active envNone clk0 stAlloc .info "net".toList loc0
      (some msg0)).1 (by decide) (by decide) (by decide)
  · exact (claim_C4_amended_filter_active envNone clk0 stAlloc .info "net".toList loc0
      (some msg0)).2 msg0 (by decide) (by decide) (by decide) rfl (by decide)

-- ## Numeric formatting lemmas

/-- The write_dec digit loop produces the base-10 digit list (least
significant first) whenever its 32-slot buffer cannot run out. -/
theorem decScanAux_eq_digits (f : Nat) : ∀ v : Nat, v < 10 ^ f →
    decScanAux f v = (Nat.digits 10 v).map digitChar := by
  induction f with
  | zero =>
    intro v hv
    have h0 : v = 0 := Nat.lt_one_iff.mp (by simpa using hv)
    subst h0
    simp [decScanAux]
  | succ f ih =>
    intro v hv
    by_cases h0 : v = 0
    · subst h0
      simp [decScanAux]
    · simp only [decScanAux, if_neg h0]
      rw [Nat.digits_def' (by norm_num : (1:Nat) < 10) (Nat.pos_of_ne_zero h0),
        List.map_cons]
      congr 1
      apply ih
      rw [Nat.div_lt_iff_lt_mul (by norm_num : (0:Nat) < 10)]
      calc v < 10 ^ (f + 1) := hv
        _ = 10 ^ f * 10 := by rw [pow_succ]

/-- write_dec emits the canonical minimal decimal representation for every
value that fits the source's size_t domain. -/
theorem write_dec_out_eq_spec (v : Nat) (hv : v < 2 ^ 64) :
    write_dec_out v = specCanonicalDec v := by
  by_cases h0 : v = 0
  · subst h0; rfl
  · unfold write_dec_out specCanonicalDec
    rw [if_neg h0, if_neg h0,
      decScanAux_eq_digits 32 v (lt_trans hv (by norm_num))]

/-- One unfolding step of the write_hex nibble loop. -/
theorem hexScan_cons (v s : Nat) (rest : List Nat) (started : Bool) :
    hexScan v (s :: rest) started =
      if ¬started ∧ v / 2 ^ s % 16 = 0 ∧ s ≠ 0 then hexScan v rest started
      else hexDigitChar (v / 2 ^ s % 16) :: hexScan v rest true := rfl

/-- Once the leading-zero skip has ended, the write_hex loop emits every
remaining nibble, most significant first. -/
theorem hexScan_true_eq (v : Nat) (m : Nat) :
    hexScan v (hexShifts m) true
      = ((List.range m).map fun j => hexDigitChar (v / 16 ^ j % 16)).reverse := by
  induction m with
  | zero => rfl
  | succ m ih =>
    have h16 : (2:Nat) ^ (4 * m) = 16 ^ m := by
      rw [pow_mul]; norm_num
    show hexScan v (4 * m :: hexShifts m) true = _
    rw [hexScan_cons, if_neg (by simp), ih]
    conv_rhs => rw [List.range_succ, List.map_append, List.reverse_append]
    simp [h16]

/-- The base-16 digit list of a number known to have exactly m + 1 digits is
the list of its nibbles, least significant first. -/
theorem digits16_eq_range_map (m : Nat) : ∀ v : Nat, 16 ^ m ≤ v → v < 16 ^ (m + 1) →
    Nat.digits 16 v = (List.range (m + 1)).map fun j => v / 16 ^ j % 16 := by
  induction m with
  | zero =>
    intro v h1 h2
    have h16 : v < 16 := by simpa using h2
    have hv0 : 0 < v := by simpa using h1
    rw [Nat.digits_def' (by norm_num : (1:Nat) < 16) hv0, Nat.div_eq_of_lt h16]
    simp [List.range_succ]
  | succ m ih =>
    intro v h1 h2
    have hv0 : 0 < v := lt_of_lt_of_le (Nat.pos_pow_of_pos _ (by norm_num)) h1
    rw [Nat.digits_def' (by norm_num : (1:Nat) < 16) hv0]
    have hd1 : 16 ^ m ≤ v / 16 := by
      rw [Nat.le_div_iff_mul_le (by norm_num : (0:Nat) < 16)]
      calc 16 ^ m * 16 = 16 ^ (m + 1) := by rw [pow_succ]
        _ ≤ v := h1
    have hd2 : v / 16 < 16 ^ (m + 1) := by
      rw [Nat.div_lt_iff_lt_mul (by norm_num : (0:Nat) < 16)]
      calc v < 16 ^ (m + 2) := h2
        _ = 16 ^ (m + 1) * 16 := by rw [pow_succ]
    rw [ih (v / 16) hd1 hd2]
    conv_rhs => rw [List.range_succ_eq_map, List.map_cons, List.map_map]
    congr 1
    · simp
    · apply List.map_congr_left
      intro j _
      simp only [Function.comp]
      rw [Nat.div_div_eq_div_mul, ← pow_succ']

/-- The full write_hex loop on a non-zero value within m + 1 nibbles emits
the canonical hex digits, most significant first. -/
theorem hexScan_false_eq (m : Nat) : ∀ v : Nat, v ≠ 0 → v < 16 ^ (m + 1) →
    hexScan v (hexShifts (m + 1)) false
      = ((Nat.digits 16 v).map hexDigitChar).reverse := by
  induction m with
  | zero =>
    intro v hv0 hv
    have h16 : v < 16 := by simpa using hv
    show hexScan v (4 * 0 :: hexShifts 0) false = _
    rw [hexScan_cons, if_neg (by simp)]
    rw [Nat.digits_def' (by norm_num : (1:Nat) < 16) (Nat.pos_of_ne_zero hv0),
      Nat.div_eq_of_lt h16, Nat.digits_zero]
    simp [hexScan]
  | succ m ih =>
    intro v hv0 hv
    have hpow : (2:Nat) ^ (4 * (m + 1)) = 16 ^ (m + 1) := by
      rw [pow_mul]; norm_num
    by_cases hlt : v < 16 ^ (m + 1)
    · show hexScan v (4 * (m + 1) :: hexShifts (m + 1)) false = _
      rw [hexScan_cons,
        if_pos ⟨by simp, by rw [hpow, Nat.div_eq_of_lt hlt], by omega⟩]
      exact ih v hv0 hlt
    · have hge : 16 ^ (m + 1) ≤ v := le_of_not_lt hlt
      have hdivlt : v / 16 ^ (m + 1) < 16 := by
        rw [Nat.div_lt_iff_lt_mul (Nat.pos_pow_of_pos _ (by norm_num))]
        calc v < 16 ^ (m + 2) := hv
          _ = 16 * 16 ^ (m + 1) := by ring
      have hnib0 : v / 2 ^ (4 * (m + 1)) % 16 ≠ 0 := by
        rw [hpow, Nat.mod_eq_of_lt hdivlt]
        have : 1 ≤ v / 16 ^ (m + 1) :=
          (Nat.one_le_div_iff (Nat.pos_pow_of_pos _ (by norm_num))).mpr hge
        omega
      show hexScan v (4 * (m + 1) :: hexShifts (m + 1)) false = _
      rw [hexScan_cons, if_neg (by simp [hnib0])]
      rw [hexScan_true_eq, digits16_eq_range_map (m + 1) v hge hv]
      conv_rhs => rw [List.map_map, List.range_succ, List.map_append,
        List.reverse_append]
      simp only [List.map_cons, List.map_nil, List.reverse_cons, List.reverse_nil,
        List.nil_append, List.singleton_append, Function.comp]
      rw [hpow]
      rfl

/-- write_hex emits 0x followed by the canonical minimal lowercase hex
representation for every value in the source's uintptr_t domain. -/
theorem write_hex_out_eq_spec (v : Nat) (hv : v < 2 ^ 64) :
    write_hex_out v = specCanonicalHex v := by
  by_cases h0 : v = 0
  · subst h0; rfl
  · have h16 : v < 16 ^ (15 + 1) := by
      calc v < 2 ^ 64 := hv
        _ = 16 ^ (15 + 1) := by norm_num
    have hbody : hexScan v (hexShifts 16) false
        = ((Nat.digits 16 v).map hexDigitChar).reverse := by
      have := hexScan_false_eq 15 v h0 h16
      simpa using this
    have hne : ((Nat.digits 16 v).map hexDigitChar).reverse ≠ [] := by
      simp [Nat.digits_ne_nil_iff_ne_zero.mpr h0]
    unfold write_hex_out specCanonicalHex
    rw [hbody]
    simp [hne, h0]

-- ## Path basename lemmas

/-- The comma/slash splitter never produces an empty token list. -/
theorem splitByAux_ne_nil (sep : Char) (l cur : Str) :
    splitByAux sep l cur ≠ [] := by
  induction l generalizing cur with
  | nil => simp [splitByAux]
  | cons c rest ih =>
    by_cases hc : c = sep
    · simp [splitByAux, hc]
    · simpa [splitByAux, hc] using ih (c :: cur)

/-- getLastD of a non-empty list ignores the default. -/
theorem getLastD_congr {α : Type} (L : List α) (a b : α) (h : L ≠ []) :
    L.getLastD a = L.getLastD b := by
  cases L with
  | nil => exact absurd rfl h
  | cons x t => rw [List.getLastD_cons, List.getLastD_cons]

/-- The basename fold equals the last token of the slash split, for every
accumulator. -/
theorem basename_of_aux (l : Str) : ∀ acc : Str,
    l.foldl (fun acc c => if c = '/' then [] else acc ++ [c]) acc
      = (splitByAux '/' l acc.reverse).getLastD [] := by
  induction l with
  | nil =>
    intro acc
    simp [splitByAux]
  | cons c rest ih =>
    intro acc
    by_cases hc : c = '/'
    · simp only [List.foldl, hc, if_pos rfl, splitByAux, if_true]
      rw [ih []]
      show (splitByAux '/' rest [].reverse).getLastD []
        = (acc.reverse.reverse :: splitByAux '/' rest []).getLastD []
      rw [List.getLastD_cons]
      exact getLastD_congr _ _ _ (splitByAux_ne_nil '/' rest [])
    · simp only [List.foldl, hc, if_neg hc, splitByAux, if_false]
      rw [ih (acc ++ [c])]
      congr 1
      simp

/-- basename_of computes the final path segment, i.e. the last piece of the
path split at '/'. -/
theorem basename_of_eq_spec (path : Str) :
    basename_of path = specBasename path := by
  unfold basename_of specBasename splitBy
  simpa using basename_of_aux path []

-- ## Timestamp shape lemma

/-- For in-range clock fields, the timestamp bytes written by
write_timestamp_to are exactly the zero-padded spec timestamp followed by
one space. -/
theorem timestampBytes_eq_spec (clk : Clock) (hy : clk.year < 10000)
    (hmo : clk.mon < 100) (hd : clk.mday < 100) (hh : clk.hour < 100)
    (hmi : clk.minute < 100) (hs : clk.sec < 100) (hms : clk.millis < 1000) :
    timestampBytes clk = specTimestamp clk ++ [' '] := by
  have h1 : clk.year / 1000 % 10 = clk.year / 1000 := by omega
  have h2 : clk.mon / 10 % 10 = clk.mon / 10 := by omega
  have h3 : clk.mday / 10 % 10 = clk.mday / 10 := by omega
  have h4 : clk.hour / 10 % 10 = clk.hour / 10 := by omega
  have h5 : clk.minute / 10 % 10 = clk.minute / 10 := by omega
  have h6 : clk.sec / 10 % 10 = clk.sec / 10 := by omega
  have h7 : clk.millis / 100 % 10 = clk.millis / 100 := by omega
  simp [timestampBytes, specTimestamp, specPad2, specPad3, specPad4, digitChar,
    h1, h2, h3, h4, h5, h6, h7]

-- ## Line shape lemma

/-- With color disabled, a formatted log line is exactly the present fields
in spec order joined by single spaces: optional timestamp, pid between
bars, prefix tag, bracketed level, optional basename:line, optional
parenthesised module, message. -/
theorem write_log_line_shape (env : Env) (clk : Clock) (st : LoggerState)
    (level : Level) (mod msg : Str) (loc : SourceLoc)
    (hc : env.use_color = false) (hpid : env.pid < 2 ^ 64)
    (hline : loc.line < 2 ^ 64) (hy : clk.year < 10000) (hmo : clk.mon < 100)
    (hd : clk.mday < 100) (hh : clk.hour < 100) (hmi : clk.minute < 100)
    (hs : clk.sec < 100) (hms : clk.millis < 1000) :
    write_log_line env clk st level mod msg loc
      = specLine env.pid (if st.timestamps_enabled then some clk else none)
          st.pfx level (if st.source_location_enabled then some loc else none)
          (if mod = [] then none else some mod) msg := by
  have hcolor : ∀ c, color env c = [] := by
    intro c; simp [color, hc]
  have hlv : level_color env level = [] := by
    cases level <;> simp [level_color, hcolor]
  have hts := timestampBytes_eq_spec clk hy hmo hd hh hmi hs hms
  have hb := basename_of_eq_spec loc.file
  have hdec := write_dec_out_eq_spec env.pid hpid
  have hdecl := write_dec_out_eq_spec loc.line hline
  by_cases h1 : st.timestamps_enabled <;> by_cases h2 : st.source_location_enabled
    <;> by_cases h3 : mod = [] <;>
    simp [write_log_line, specLine, optField, h1, h2, h3, hcolor, hlv, hts, hb,
      hdec, hdecl, List.intercalate, List.intersperse]

-- ## C2: byte-exact field layout of emitted lines (color off)

/-- C2: with color disabled, every formatted log line is, in fixed order:
an optional bracketed zero-padded timestamp (present only when timestamps
are enabled), the decimal pid between bars, the prefix verbatim, the
bracketed level label, an optional basename:line source field (present only
when source location is enabled), an optional parenthesised module field
(present only when a non-empty tag was supplied), and the message verbatim —
adjacent present fields separated by exactly one space and nothing appended
after the message. -/
theorem claim_C2_line_format (env : Env) (clk : Clock) (st : LoggerState)
    (level : Level) (mod msg : Str) (loc : SourceLoc)
    (hc : env.use_color = false) (hpid : env.pid < 2 ^ 64)
    (hline : loc.line < 2 ^ 64) (hy : clk.year < 10000) (hmo : clk.mon < 100)
    (hd : clk.mday < 100) (hh : clk.hour < 100) (hmi : clk.minute < 100)
    (hs : clk.sec < 100) (hms : clk.millis < 1000) :
    write_log_line env clk st level mod msg loc
      = specLine env.pid (if st.timestamps_enabled then some clk else none)
          st.pfx level (if st.source_location_enabled then some loc else none)
          (if mod = [] then none else some mod) msg :=
  write_log_line_shape env clk st level mod msg loc hc hpid hline hy hmo hd hh
    hmi hs hms

/-- C2 exercised on closed inputs: a full-field line (timestamps, source
location and a module tag all present). -/
theorem claim_C2_line_format_witness :
    envNone.use_color = false
    ∧ write_log_line envNone clk0
        { stOn with timestamps_enabled := true, source_location_enabled := true }
        .warn "alloc".toList msg0 loc0
      = specLine envNone.pid (some clk0) stOn.pfx .warn (some loc0)
          (some "alloc".toList) msg0 := by
  refine ⟨rfl, ?_⟩
  have h := claim_C2_line_format envNone clk0
    { stOn with timestamps_enabled := true, source_location_enabled := true }
    .warn "alloc".toList msg0 loc0 rfl (by decide) (by decide) (by decide)
    (by decide) (by decide) (by decide) (by decide) (by decide) (by decide)
  simpa using h

-- ## C7: prefix round-trip through set_prefix and line emission

/-- C7: after set_prefix with a string of exactly 63 bytes the stored prefix
and the prefix field of the next formatted line are the string in full;
with a string of 64 bytes or more they are exactly its first 63 bytes. -/
theorem claim_C7_prefix_roundtrip (env : Env) (clk : Clock) (st : LoggerState)
    (level : Level) (loc : SourceLoc) (s msg : Str)
    (hc : env.use_color = false) (hpid : env.pid < 2 ^ 64)
    (hline : loc.line < 2 ^ 64) (hy : clk.year < 10000) (hmo : clk.mon < 100)
    (hd : clk.mday < 100) (hh : clk.hour < 100) (hmi : clk.minute < 100)
    (hs : clk.sec < 100) (hms : clk.millis < 1000) :
    (s.length = 63 →
      (set_pfx s st).pfx = s
      ∧ write_log_line env clk (set_pfx s st) level [] msg loc
          = specLine env.pid (if st.timestamps_enabled then some clk else none)
              s level (if st.source_location_enabled then some loc else none)
              none msg)
    ∧ (64 ≤ s.length →
      (set_pfx s st).pfx = s.take 63
      ∧ write_log_line env clk (set_pfx s st) level [] msg loc
          = specLine env.pid (if st.timestamps_enabled then some clk else none)
              (s.take 63) level
              (if st.source_location_enabled then some loc else none) none msg) := by
  have hshape := fun st' : LoggerState =>
    write_log_line_shape env clk st' level [] msg loc hc hpid hline hy hmo hd hh
      hmi hs hms
  constructor
  · intro h63
    have hlt : ¬ s.length ≥ 64 := by omega
    have hpfx : (set_pfx s st).pfx = s := by
      simp [set_pfx, hlt]
    refine ⟨hpfx, ?_⟩
    have h := hshape (set_pfx s st)
    rw [h, hpfx]
    rfl
  · intro h64
    have hge : s.length ≥ 64 := h64
    have hpfx : (set_pfx s st).pfx = s.take 63 := by
      simp [set_pfx, hge]
    refine ⟨hpfx, ?_⟩
    have h := hshape (set_pfx s st)
    rw [h, hpfx]
    rfl

/-- C7 exercised on closed inputs: a 63-byte prefix survives in full, a
64-byte prefix is cut to its first 63 bytes, both observed in the formatted
line. -/
theorem claim_C7_prefix_roundtrip_witness :
    (List.replicate 63 'a').length = 63
    ∧ (set_pfx (List.replicate 63 'a') stOn).pfx = List.replicate 63 'a'
    ∧ write_log_line envNone clk0 (set_pfx (List.replicate 63 'a') stOn) .info []
        msg0 loc0
      = specLine envNone.pid none (List.replicate 63 'a') .info none none msg0
    ∧ (set_pfx (List.replicate 64 'b') stOn).pfx
        = (List.replicate 64 'b').take 63 := by
  have h63 := (claim_C7_prefix_roundtrip envNone clk0 stOn .info loc0
    (List.replicate 63 'a') msg0 rfl (by decide) (by decide) (by decide)
    (by decide) (by decide) (by decide) (by decide) (by decide)
    (by decide)).1 (by simp)
  have h64 := (claim_C7_prefix_roundtrip envNone clk0 stOn .info loc0
    (List.replicate 64 'b') msg0 rfl (by decide) (by decide) (by decide)
    (by decide) (by decide) (by decide) (by decide) (by decide)
    (by decide)).2 (by simp)
  exact ⟨by simp, h63.1, by simpa using h63.2, h64.1⟩

-- ## C9: canonical numeric formatting

/-- C9: over the source's 64-bit value domains, write_dec emits the
canonical minimal decimal representation (single zero digit for zero, no
leading zeros otherwise), and write_hex emits 0x followed by the canonical
minimal lowercase hexadecimal representation. -/
theorem claim_C9_numeric_formatting (v : Nat) (hv : v < 2 ^ 64) :
    write_dec_out v = specCanonicalDec v
    ∧ write_hex_out v = specCanonicalHex v := by
  exact ⟨write_dec_out_eq_spec v hv, write_hex_out_eq_spec v hv⟩

/-- C9 exercised on a closed input. -/
theorem claim_C9_numeric_formatting_witness :
    (48879 : Nat) < 2 ^ 64
    ∧ write_dec_out 48879 = specCanonicalDec 48879
    ∧ write_hex_out 48879 = specCanonicalHex 48879 := by
  refine ⟨by norm_num, (claim_C9_numeric_formatting 48879 (by norm_num)).1,
    (claim_C9_numeric_formatting 48879 (by norm_num)).2⟩

-- ## Precedence lemmas: explicit calls win over environment defaults

/-- Every API call other than set_min_level leaves an explicitly-set minimum
level (value and marker) untouched. -/
theorem step_min_level_of_explicit (env : Env) (st : LoggerState) (op : Op)
    (h : st.min_level_explicit = true) (hop : ∀ l, op ≠ Op.opSetMinLevel l) :
    (step env st op).min_level = st.min_level
    ∧ (step env st op).min_level_explicit = true := by
  have hpair : ∀ s : LoggerState, s.min_level_explicit = true →
      (init_once env s).min_level = s.min_level
      ∧ (init_once env s).min_level_explicit = true := by
    intro s hs
    exact ⟨init_once_min_level_of_explicit env s hs,
      (init_once_min_level_explicit env s).trans hs⟩
  have hadd : ∀ n (s : LoggerState), s.min_level_explicit = true →
      (add_module_locked n s).min_level = s.min_level
      ∧ (add_module_locked n s).min_level_explicit = true := by
    intro n s hs
    exact ⟨add_module_locked_min_level n s,
      (add_module_locked_min_level_explicit n s).trans hs⟩
  cases op with
  | opEnableLogging => exact ⟨rfl, h⟩
  | opDisableLogging => exact ⟨rfl, h⟩
  | opSetPfx p => exact ⟨rfl, h⟩
  | opSetMinLevel l => exact absurd rfl (hop l)
  | opEnableModule n =>
    simp only [step, enable_module]
    split
    · exact ⟨rfl, h⟩
    · obtain ⟨h1, h2⟩ := hpair { st with modules_explicit := true } h
      obtain ⟨h3, h4⟩ := hadd n _ h2
      exact ⟨h3.trans h1, h4⟩
  | opDisableModule n =>
    simp only [step, disable_module]
    split
    · exact ⟨rfl, h⟩
    · obtain ⟨h1, h2⟩ := hpair { st with modules_explicit := true } h
      split
      · exact ⟨h1, h2⟩
      · exact ⟨h1, h2⟩
  | opEnableAllModules =>
    simp only [step, enable_all_modules]
    obtain ⟨h1, h2⟩ := hpair { st with modules_explicit := true } h
    exact ⟨h1, h2⟩
  | opSetThreadSafe b => exact ⟨rfl, h⟩
  | opSetTimestamps b => exact ⟨rfl, h⟩
  | opSetSourceLocation b => exact ⟨rfl, h⟩
  | opSetSink b => exact ⟨rfl, h⟩
  | opLog l m => exact hpair st h

/-- Once the minimum level is explicitly set, no sequence of API calls that
avoids set_min_level can change it. -/
theorem run_min_level_of_explicit (env : Env) (ops : List Op) (st : LoggerState)
    (h : st.min_level_explicit = true)
    (hops : ∀ x, Op.opSetMinLevel x ∉ ops) :
    (run env ops st).min_level = st.min_level
    ∧ (run env ops st).min_level_explicit = true := by
  induction ops generalizing st with
  | nil => exact ⟨rfl, h⟩
  | cons op rest ih =>
    have hop : ∀ l, op ≠ Op.opSetMinLevel l := by
      intro l hl
      exact hops l (hl ▸ List.mem_cons_self op rest)
    have hrest : ∀ x, Op.opSetMinLevel x ∉ rest := by
      intro x hx
      exact hops x (List.mem_cons_of_mem op hx)
    obtain ⟨h1, h2⟩ := step_min_level_of_explicit env st op h hop
    obtain ⟨h3, h4⟩ := ih (step env st op) h2 hrest
    exact ⟨h3.trans h1, h4⟩

/-- Removing CT_DEBUG from the environment does not change the CT_LOG_LEVEL
block. -/
theorem init_level_from_env_nodbg (env : Env) (st : LoggerState) :
    init_level_from_env { env with ct_debug := none } st
      = init_level_from_env env st := rfl

/-- Once modules are explicitly configured, env init is independent of
CT_DEBUG. -/
theorem init_from_env_nodbg (env : Env) (st : LoggerState)
    (h : st.modules_explicit = true) :
    init_from_env { env with ct_debug := none } st = init_from_env env st := by
  unfold init_from_env
  have hme : (init_level_from_env env st).modules_explicit = true :=
    (init_level_from_env_pres (fun s => s.modules_explicit) (fun _ _ => rfl)
      env st).trans h
  rw [init_level_from_env_nodbg, init_modules_from_env_of_explicit _ _ hme,
    init_modules_from_env_of_explicit _ _ hme]

theorem init_once_nodbg (env : Env) (st : LoggerState)
    (h : st.modules_explicit = true) :
    init_once { env with ct_debug := none } st = init_once env st := by
  unfold init_once
  split
  · rfl
  · rw [init_from_env_nodbg env st h]

/-- Once modules are explicitly configured, every API call behaves the same
with and without CT_DEBUG, and keeps the explicit marker set. -/
theorem step_nodbg (env : Env) (st : LoggerState) (op : Op)
    (h : st.modules_explicit = true) :
    step { env with ct_debug := none } st op = step env st op
    ∧ (step env st op).modules_explicit = true := by
  have hsttrue : ∀ b : Bool, ({ st with modules_explicit := b } : LoggerState).modules_explicit = b :=
    fun b => rfl
  have hio : ∀ s : LoggerState, s.modules_explicit = true →
      (init_once env s).modules_explicit = true :=
    fun s hs => (init_once_modules_explicit env s).trans hs
  cases op with
  | opEnableLogging => exact ⟨rfl, h⟩
  | opDisableLogging => exact ⟨rfl, h⟩
  | opSetPfx p => exact ⟨rfl, h⟩
  | opSetMinLevel l =>
    constructor
    · simp only [step, set_min_level]
      rw [init_once_nodbg env { st with min_level_explicit := true } h]
    · exact hio { st with min_level_explicit := true } h
  | opEnableModule n =>
    constructor
    · simp only [step, enable_module]
      split
      · rfl
      · rw [init_once_nodbg env { st with modules_explicit := true } rfl]
    · simp only [step, enable_module]
      split
      · exact h
      · exact (add_module_locked_modules_explicit n _).trans
          (hio { st with modules_explicit := true } rfl)
  | opDisableModule n =>
    constructor
    · simp only [step, disable_module]
      split
      · rfl
      · rw [init_once_nodbg env { st with modules_explicit := true } rfl]
    · simp only [step, disable_module]
      split
      · exact h
      · split
        · exact hio { st with modules_explicit := true } rfl
        · exact hio { st with modules_explicit := true } rfl
  | opEnableAllModules =>
    constructor
    · simp only [step, enable_all_modules]
      rw [init_once_nodbg env { st with modules_explicit := true } rfl]
    · exact hio { st with modules_explicit := true } rfl
  | opSetThreadSafe b => exact ⟨rfl, h⟩
  | opSetTimestamps b => exact ⟨rfl, h⟩
  | opSetSourceLocation b => exact ⟨rfl, h⟩
  | opSetSink b => exact ⟨rfl, h⟩
  | opLog l m => exact ⟨init_once_nodbg env st h, hio st h⟩

/-- Once modules are explicitly configured, whole call sequences are
independent of CT_DEBUG. -/
theorem run_nodbg (env : Env) (ops : List Op) (st : LoggerState)
    (h : st.modules_explicit = true) :
    run { env with ct_debug := none } ops st = run env ops st := by
  induction ops generalizing st with
  | nil => rfl
  | cons op rest ih =>
    obtain ⟨h1, h2⟩ := step_nodbg env st op h
    show run { env with ct_debug := none } rest (step { env with ct_debug := none } st op)
      = run env rest (step env st op)
    rw [h1, ih (step env st op) h2]

-- ## Module invariant lemmas

theorem remove_first_module_subset (n x : Str) (l : List Str)
    (h : x ∈ remove_first_module n l) : x ∈ l := by
  induction l with
  | nil => simp [remove_first_module] at h
  | cons m rest ih =>
    by_cases hm : m = n
    · simp only [remove_first_module, if_pos hm] at h
      exact List.mem_cons_of_mem m h
    · simp only [remove_first_module, if_neg hm, List.mem_cons] at h
      rcases h with h | h
      · exact h ▸ List.mem_cons_self m rest
      · exact List.mem_cons_of_mem m (ih h)

theorem remove_first_module_length_le (n : Str) (l : List Str) :
    (remove_first_module n l).length ≤ l.length := by
  induction l with
  | nil => simp [remove_first_module]
  | cons m rest ih =>
    by_cases hm : m = n
    · simp [remove_first_module, hm, Nat.le_succ]
    · simpa [remove_first_module, hm] using ih

theorem moduleInv_add_module_locked (n : Str) (st : LoggerState)
    (hinv : moduleInv st) (hne : n ≠ []) (hlen : n.length ≤ 31) :
    moduleInv (add_module_locked n st) := by
  obtain ⟨hlen32, hent, hfa⟩ := hinv
  unfold add_module_locked
  split
  · exact ⟨hlen32, hent, hfa⟩
  · split
    · refine ⟨?_, ?_, ?_⟩
      · simpa using by omega
      · intro m hm
        rcases List.mem_append.mp hm with h | h
        · exact hent m h
        · rcases List.mem_singleton.mp h with rfl
          exact ⟨hne, hlen⟩
      · simp
    · exact ⟨hlen32, hent, hfa⟩

theorem moduleInv_seed_modules_from_env (s : Str) (st : LoggerState)
    (hinv : moduleInv st) : moduleInv (seed_modules_from_env s st) := by
  unfold seed_modules_from_env
  generalize splitBy ',' s = toks
  induction toks generalizing st with
  | nil => exact hinv
  | cons t ts ih =>
    simp only [List.foldl]
    apply ih
    split
    · next h =>
        exact moduleInv_add_module_locked t st hinv (List.ne_nil_of_length_pos h.1)
          (by omega)
    · exact hinv

theorem moduleInv_init_once (env : Env) (st : LoggerState)
    (hinv : moduleInv st) : moduleInv (init_once env st) := by
  unfold init_once
  split
  · exact hinv
  · have h1 : moduleInv (init_level_from_env env st) := by
      unfold init_level_from_env
      split
      · exact hinv
      · split
        · exact hinv
        · exact hinv
    have h2 : moduleInv (init_from_env env st) := by
      unfold init_from_env init_modules_from_env
      split
      · exact h1
      · split
        · exact h1
        · split
          · exact h1
          · exact moduleInv_seed_modules_from_env _ _ h1
    exact h2

theorem moduleInv_step (env : Env) (st : LoggerState) (op : Op)
    (hinv : moduleInv st) : moduleInv (step env st op) := by
  have hme : ∀ s : LoggerState, moduleInv s →
      moduleInv ({ s with modules_explicit := true } : LoggerState) := fun s h => h
  cases op with
  | opEnableLogging => exact hinv
  | opDisableLogging => exact hinv
  | opSetPfx p => exact hinv
  | opSetMinLevel l =>
    exact moduleInv_init_once env _ (hme _ hinv)
  | opEnableModule n =>
    simp only [step, enable_module]
    split
    · exact hinv
    · next h =>
      have hlen : n.length ≤ 31 := by
        rcases Nat.lt_or_ge n.length 32 with h32 | h32
        · omega
        · exact absurd (Or.inr h32) h
      have hne : n ≠ [] := fun hnil => h (Or.inl hnil)
      exact moduleInv_add_module_locked n _
        (moduleInv_init_once env _ (hme _ hinv)) hne hlen
  | opDisableModule n =>
    simp only [step, disable_module]
    split
    · exact hinv
    · have hinv1 : moduleInv (init_once env { st with modules_explicit := true }) :=
        moduleInv_init_once env _ (hme _ hinv)
      obtain ⟨hlen32, hent, hfa⟩ := hinv1
      split
      · next hmem =>
        refine ⟨?_, ?_, ?_⟩
        · exact le_trans (remove_first_module_length_le _ _) hlen32
        · exact fun m hm => hent m (remove_first_module_subset _ _ _ hm)
        · simp only []
          split
          · next hnil => simp [hnil]
          · next hnil =>
            exact ⟨fun _ => hnil, fun _ => hfa.mpr (List.ne_nil_of_mem hmem)⟩
      · exact ⟨hlen32, hent, hfa⟩
  | opEnableAllModules =>
    refine ⟨?_, ?_, ?_⟩ <;> simp [step, enable_all_modules]
  | opSetThreadSafe b => exact hinv
  | opSetTimestamps b => exact hinv
  | opSetSourceLocation b => exact hinv
  | opSetSink b => exact hinv
  | opLog l m => exact moduleInv_init_once env st hinv

theorem moduleInv_initialState : moduleInv initialState := by
  refine ⟨by simp [initialState], by simp [initialState], by simp [initialState]⟩

-- ## C3: explicit API calls always win over environment defaults

/-- C3: a set_min_level call stores exactly the requested level, and the
stored level survives every later call sequence that avoids set_min_level —
in particular lazy env init running before the call (inside any prior state)
or after it (inside later log calls) never overrides it; and once any
explicit module call has been made, whole call sequences behave identically
with and without CT_DEBUG in the environment, so environment module defaults
are never applied (each explicit module call sets the explicit marker). -/
theorem claim_C3_explicit_beats_env (env : Env) (l : Level) (st : LoggerState)
    (ops : List Op) :
    ((set_min_level env l st).min_level = l.toNat)
    ∧ ((∀ x, Op.opSetMinLevel x ∉ ops) →
        (run env ops (set_min_level env l st)).min_level = l.toNat)
    ∧ (st.modules_explicit = true →
        run { env with ct_debug := none } ops st = run env ops st)
    ∧ (∀ n : Str, n ≠ [] → n.length < 32 →
        (enable_module env n st).modules_explicit = true)
    ∧ (∀ n : Str, n ≠ [] → (disable_module env n st).modules_explicit = true)
    ∧ ((enable_all_modules env st).modules_explicit = true) := by
  have hmle : (set_min_level env l st).min_level_explicit = true :=
    (init_once_min_level_explicit env { st with min_level_explicit := true })
  have hio : ∀ s : LoggerState, s.modules_explicit = true →
      (init_once env s).modules_explicit = true :=
    fun s hs => (init_once_modules_explicit env s).trans hs
  refine ⟨rfl, fun hops => ?_, fun h => run_nodbg env ops st h, ?_, ?_, ?_⟩
  · exact (run_min_level_of_explicit env ops (set_min_level env l st) hmle hops).1
  · intro n hne hlen
    have hv : ¬ (n = [] ∨ 32 ≤ n.length) := by
      rintro (h | h)
      · exact hne h
      · omega
    simp only [enable_module, if_neg hv]
    exact (add_module_locked_modules_explicit n _).trans
      (hio { st with modules_explicit := true } rfl)
  · intro n hne
    simp only [disable_module, if_neg hne]
    split
    · exact hio { st with modules_explicit := true } rfl
    · exact hio { st with modules_explicit := true } rfl
  · exact hio { st with modules_explicit := true } rfl

/-- C3 exercised on closed inputs: under CT_LOG_LEVEL=warn and
CT_DEBUG=alloc,net, an explicit set_min_level to Error on the pristine state
stays Error across a later log call (which runs lazy env init), and after an
explicit enable_module call the remaining sequence is independent of
CT_DEBUG. -/
theorem claim_C3_explicit_beats_env_witness :
    (set_min_level envSeed .error initialState).min_level = Level.error.toNat
    ∧ (run envSeed [Op.opLog .info none]
        (set_min_level envSeed .error initialState)).min_level = Level.error.toNat
    ∧ (run { envSeed with ct_debug := none } [Op.opLog .info none, Op.opEnableLogging]
          (enable_module envSeed "alloc".toList initialState)
        = run envSeed [Op.opLog .info none, Op.opEnableLogging]
            (enable_module envSeed "alloc".toList initialState)) := by
  refine ⟨(claim_C3_explicit_beats_env envSeed .error initialState []).1,
    (claim_C3_explicit_beats_env envSeed .error initialState [Op.opLog .info none]).2.1
      (by intro x hx; simp at hx), ?_⟩
  exact (claim_C3_explicit_beats_env envSeed .error
      (enable_module envSeed "alloc".toList initialState)
      [Op.opLog .info none, Op.opEnableLogging]).2.2.1
    ((claim_C3_explicit_beats_env envSeed .error initialState []).2.2.2.1
      "alloc".toList (by decide) (by decide))

-- ## C5: the module table invariant holds after every operation sequence

/-- C5: after every sequence of API calls starting from the initial state,
the module table holds at most 32 entries, each non-empty and at most 31
bytes, and filter_active holds exactly when the table is non-empty;
moreover enable_module on a full 32-entry table leaves the table and the
filter flag unchanged (silent no-op). -/
theorem claim_C5_module_table_invariant :
    (∀ env ops, moduleInv (run env ops initialState))
    ∧ (∀ env (n : Str) (st : LoggerState), st.modules.length = 32 →
        (enable_module env n st).modules = st.modules
        ∧ (enable_module env n st).filter_active = st.filter_active) := by
  constructor
  · intro env ops
    have : ∀ st, moduleInv st → moduleInv (run env ops st) := by
      induction ops with
      | nil => exact fun st h => h
      | cons op rest ih =>
        intro st h
        exact ih (step env st op) (moduleInv_step env st op h)
    exact this initialState moduleInv_initialState
  · intro env n st hfull
    by_cases hv : n = [] ∨ 32 ≤ n.length
    · simp [enable_module, hv]
    · simp only [enable_module, hv, if_false]
      have hstme : ({ st with modules_explicit := true } : LoggerState).modules_explicit
          = true := rfl
      have hm : (init_once env { st with modules_explicit := true }).modules
          = st.modules := (init_once_modules_of_explicit env _ hstme).1
      have hf : (init_once env { st with modules_explicit := true }).filter_active
          = st.filter_active := (init_once_modules_of_explicit env _ hstme).2
      unfold add_module_locked
      split
      · exact ⟨hm, hf⟩
      · split
        · next hlt => rw [hm] at hlt; omega
        · exact ⟨hm, hf⟩

/-- C5 exercised on closed inputs: the invariant after a concrete call
sequence, and a silent no-op insert into a concrete full table. -/
theorem claim_C5_module_table_invariant_witness :
    moduleInv (run envSeed
      [Op.opEnableModule "alloc".toList, Op.opDisableModule "x".toList,
        Op.opLog .info none] initialState)
    ∧ stFull.modules.length = 32
    ∧ (enable_module envNone "zz".toList stFull).modules = stFull.modules := by
  refine ⟨(claim_C5_module_table_invariant).1 envSeed _, by decide, ?_⟩
  exact ((claim_C5_module_table_invariant).2 envNone "zz".toList stFull (by decide)).1

-- ## C6: idempotence and no-op behaviour of the module operations

/-- C6 as stated is false on the code: disable_module of a name that was
never registered is not a state no-op — on the pristine initial state it
still sets the modules-explicit marker (and runs one-time env init), so the
state changes. -/
theorem claim_C6_counterexample :
    "x".toList ∉ initialState.modules
    ∧ ¬ disable_module envNone "x".toList initialState = initialState := by
  decide

/-- C6 amended: enable_module applied twice equals enable_module applied
once (exact state equality); disable_module of an absent name leaves the
module table and filter flag unchanged, and is a complete state no-op once
modules are explicitly configured and env init has run; enable_all_modules
always leaves the table empty with filtering inactive, and is a complete
state no-op when the table was already empty with filtering off, modules
explicitly configured and env init run. -/
theorem claim_C6_amended_idempotence (env : Env) (n : Str) (st : LoggerState) :
    enable_module env n (enable_module env n st) = enable_module env n st
    ∧ (n ∉ st.modules →
        (disable_module env n st).modules = st.modules
        ∧ (disable_module env n st).filter_active = st.filter_active)
    ∧ (n ∉ st.modules → st.modules_explicit = true → st.env_inited = true →
        disable_module env n st = st)
    ∧ ((enable_all_modules env st).modules = []
        ∧ (enable_all_modules env st).filter_active = false)
    ∧ (st.modules = [] → st.filter_active = false → st.modules_explicit = true →
        st.env_inited = true → enable_all_modules env st = st) := by
  have hstme : ∀ s : LoggerState,
      ({ s with modules_explicit := true } : LoggerState).modules_explicit = true := by
    intro s; rfl
  refine ⟨?_, fun hmem => ?_, fun hmem hme hei => ?_, ⟨rfl, rfl⟩,
    fun hm hf hme hei => ?_⟩
  · by_cases hv : n = [] ∨ 32 ≤ n.length
    · simp [enable_module, hv]
    · simp only [enable_module, hv, if_false]
      have hBme : (add_module_locked n
          (init_once env { st with modules_explicit := true })).modules_explicit
            = true := by
        rw [add_module_locked_modules_explicit, init_once_modules_explicit]
      have hBei : (add_module_locked n
          (init_once env { st with modules_explicit := true })).env_inited = true := by
        rw [add_module_locked_env_inited]
        exact init_once_env_inited _ _
      rw [set_modules_explicit_eq_self _ hBme, init_once_of_inited _ _ hBei,
        add_module_locked_idem]
  · by_cases hn : n = []
    · simp [disable_module, hn]
    · have hm : (init_once env { st with modules_explicit := true }).modules
          = st.modules :=
        (init_once_modules_of_explicit env _ (hstme st)).1
      have hf : (init_once env { st with modules_explicit := true }).filter_active
          = st.filter_active :=
        (init_once_modules_of_explicit env _ (hstme st)).2
      simp [disable_module, hn, hmem, hm, hf]
  · by_cases hn : n = []
    · simp [disable_module, hn]
    · rw [disable_module, if_neg hn, set_modules_explicit_eq_self st hme,
        init_once_of_inited env st hei, if_neg hmem]
  · rw [enable_all_modules, set_modules_explicit_eq_self st hme,
      init_once_of_inited env st hei]
    cases st
    simp_all

/-- C6 amended exercised on closed inputs: double registration of alloc in
the initial state, and removal of the absent name net from the
{alloc}-filtered state. -/
theorem claim_C6_amended_idempotence_witness :
    enable_module envNone "alloc".toList (enable_module envNone "alloc".toList stOn)
        = enable_module envNone "alloc".toList stOn
    ∧ "net".toList ∉ stAlloc.modules
    ∧ (disable_module envNone "net".toList stAlloc).modules = stAlloc.modules
    ∧ (enable_all_modules envNone stAlloc).modules = [] := by
  refine ⟨(claim_C6_amended_idempotence envNone "alloc".toList stOn).1, by decide,
    ?_, (claim_C6_amended_idempotence envNone "net".toList stAlloc).2.2.2.1.1⟩
  exact ((claim_C6_amended_idempotence envNone "net".toList stAlloc).2.1 (by decide)).1

end Coretrace
